import Mathlib

/-!
Verification of the Ergo runtime layer: the `LogicManager` validation and
model-management entry points (packages/ergo-compiler/lib/logicmanager.js)
and the `Engine` invocation protocol (packages/ergo-engine/lib/engine.js).

Wire JSON values are embedded as the mutual inductive `JValue`/`JArr`/`JObj`.
External collaborators (the concerto serializer/validator, the compiled VM,
the Util time helper) are abstracted as function-valued parameters, so every
theorem quantifies over their behaviour; concrete instantiations are used to
evaluate the development on closed inputs.
-/

namespace Ergo

mutual
/-- A wire JSON value. `jnat` is a natural number (the integer values the
boxing codec tags as a nat record); `jnum` is any other JSON number. -/
inductive JValue where
  | jnull
  | jbool (b : Bool)
  | jnum (x : Int)
  | jnat (n : Nat)
  | jstr (s : String)
  | jarr (elems : JArr)
  | jobj (fields : JObj)
inductive JArr where
  | nil
  | cons (v : JValue) (tl : JArr)
inductive JObj where
  | nil
  | cons (k : String) (v : JValue) (tl : JObj)
end

/-- Length of a JSON array. -/
def arrLen : JArr → Nat
  | .nil => 0
  | .cons _ tl => arrLen tl + 1

/-- Look a key up in a JSON object (first occurrence, as JS property access). -/
def JObj.lookupKey : JObj → String → Option JValue
  | .nil, _ => none
  | .cons k v tl, key => if k = key then some v else JObj.lookupKey tl key

/-- JS property write `target[key] = v`: an existing key keeps its position,
a new key is appended. One step of `Object.assign`. -/
def JObj.setKey : JObj → String → JValue → JObj
  | .nil, key, v => .cons key v .nil
  | .cons k w tl, key, v =>
      if k = key then .cons k v tl else .cons k w (JObj.setKey tl key v)

/-- Number of fields of a JSON object. -/
def JObj.size : JObj → Nat
  | .nil => 0
  | .cons _ _ tl => JObj.size tl + 1

/-- JS `x instanceof Object`: true exactly for objects and arrays. -/
def isObjectLike : JValue → Bool
  | .jobj _ => true
  | .jarr _ => true
  | _ => false

mutual
/-- Modelled from the spec: `boxedCollections.boxColl` is not under `src/`
(only `logicmanager.js` and `engine.js` require it). Per the spec's Boxing
Codec rules, a natural number is wrapped as a tagged record carrying its
numeric value and a fixed-length ordered collection is wrapped as a tagged
record carrying the sequence and its length; other values are traversed
structurally. -/
def boxColl : JValue → JValue
  | .jnat n => .jobj (.cons "$nat" (.jnat n) .nil)
  | .jarr xs =>
      .jobj (.cons "$coll" (.jarr (boxCollArr xs)) (.cons "$length" (.jnat (arrLen xs)) .nil))
  | .jobj fs => .jobj (boxCollObj fs)
  | v => v
def boxCollArr : JArr → JArr
  | .nil => .nil
  | .cons v tl => .cons (boxColl v) (boxCollArr tl)
def boxCollObj : JObj → JObj
  | .nil => .nil
  | .cons k v tl => .cons k (boxColl v) (boxCollObj tl)
end

mutual
/-- Modelled from the spec: `boxedCollections.unboxColl` (not under `src/`).
Inverse direction of the Boxing Codec: a `$nat` record unwraps to its number,
a `$coll`/`$length` record unwraps to the plain sequence, everything else is
traversed structurally. -/
def unboxColl : JValue → JValue
  | .jobj (.cons "$nat" (.jnat n) .nil) => .jnat n
  | .jobj (.cons "$coll" (.jarr xs) (.cons "$length" _ .nil)) => .jarr (unboxCollArr xs)
  | .jobj fs => .jobj (unboxCollObj fs)
  | .jarr xs => .jarr (unboxCollArr xs)
  | v => v
def unboxCollArr : JArr → JArr
  | .nil => .nil
  | .cons v tl => .cons (unboxColl v) (unboxCollArr tl)
def unboxCollObj : JObj → JObj
  | .nil => .nil
  | .cons k v tl => .cons k (unboxColl v) (unboxCollObj tl)
end

mutual
/-- A wire JSON value is valid for the boxing codec when none of its objects
uses one of the codec's reserved tags as a field name. -/
def wireOk : JValue → Bool
  | .jarr xs => wireOkArr xs
  | .jobj fs => wireOkObj fs
  | _ => true
def wireOkArr : JArr → Bool
  | .nil => true
  | .cons v tl => wireOk v && wireOkArr tl
def wireOkObj : JObj → Bool
  | .nil => true
  | .cons k v tl =>
      !(k = "$nat" || k = "$coll" || k = "$length") && wireOk v && wireOkObj tl
end

theorem unboxColl_jobj_cons_of_not_reserved (k : String) (v : JValue) (tl : JObj)
    (h1 : k ≠ "$nat") (h2 : k ≠ "$coll") :
    unboxColl (.jobj (.cons k v tl)) = .jobj (unboxCollObj (.cons k v tl)) := by
  unfold unboxColl
  split
  · rename_i heq
    injection heq with h
    injection h with hk hv htl
    exact absurd hk h1
  · rename_i heq
    injection heq with h
    injection h with hk hv htl
    exact absurd hk h2
  · rename_i x fs hno1 hno2 heq
    injection heq with h
    rw [h]
  · rename_i heq
    simp at heq
  · rename_i x hno1 hno2 hnobj hnarr
    exact absurd rfl (hnobj (.cons k v tl))

mutual
theorem unboxColl_boxColl (v : JValue) (h : wireOk v = true) : unboxColl (boxColl v) = v := by
  match v with
  | .jnull | .jbool _ | .jnum _ | .jstr _ => rfl
  | .jnat n => rfl
  | .jarr xs =>
      have h' : wireOkArr xs = true := by simpa [wireOk] using h
      show JValue.jarr (unboxCollArr (boxCollArr xs)) = JValue.jarr xs
      rw [unboxCollArr_boxCollArr xs h']
  | .jobj .nil => rfl
  | .jobj (.cons k v' tl) =>
      have h' : (!(k = "$nat" || k = "$coll" || k = "$length") && wireOk v' && wireOkObj tl) = true := by
        simpa [wireOk, wireOkObj] using h
      simp only [Bool.and_eq_true] at h'
      obtain ⟨⟨hks, hv⟩, htl⟩ := h'
      have hk1 : k ≠ "$nat" := by intro hc; subst hc; simp at hks
      have hk2 : k ≠ "$coll" := by intro hc; subst hc; simp at hks
      show unboxColl (.jobj (boxCollObj (.cons k v' tl))) = JValue.jobj (.cons k v' tl)
      rw [show boxCollObj (.cons k v' tl) = .cons k (boxColl v') (boxCollObj tl) from rfl]
      rw [unboxColl_jobj_cons_of_not_reserved k (boxColl v') (boxCollObj tl) hk1 hk2]
      rw [show unboxCollObj (.cons k (boxColl v') (boxCollObj tl))
            = .cons k (unboxColl (boxColl v')) (unboxCollObj (boxCollObj tl)) from rfl]
      rw [unboxColl_boxColl v' hv, unboxCollObj_boxCollObj tl htl]
theorem unboxCollArr_boxCollArr (xs : JArr) (h : wireOkArr xs = true) :
    unboxCollArr (boxCollArr xs) = xs := by
  match xs with
  | .nil => rfl
  | .cons v tl =>
      have h' : (wireOk v && wireOkArr tl) = true := by simpa [wireOkArr] using h
      simp only [Bool.and_eq_true] at h'
      show JArr.cons (unboxColl (boxColl v)) (unboxCollArr (boxCollArr tl)) = JArr.cons v tl
      rw [unboxColl_boxColl v h'.1, unboxCollArr_boxCollArr tl h'.2]
theorem unboxCollObj_boxCollObj (fs : JObj) (h : wireOkObj fs = true) :
    unboxCollObj (boxCollObj fs) = fs := by
  match fs with
  | .nil => rfl
  | .cons k v tl =>
      have h' : (!(k = "$nat" || k = "$coll" || k = "$length") && wireOk v && wireOkObj tl) = true := by
        simpa [wireOkObj] using h
      simp only [Bool.and_eq_true] at h'
      show JObj.cons k (unboxColl (boxColl v)) (unboxCollObj (boxCollObj tl)) = JObj.cons k v tl
      rw [unboxColl_boxColl v h'.1.2, unboxCollObj_boxCollObj tl h'.2]
end

/-- Error taxonomy of the runtime (spec section 7), plus the JS `TypeError`
raised by a property access on `null`. -/
inductive Err where
  | validation (msg : String)
  | modelError (msg : String)
  | compileError (msg : String)
  | unsupportedTarget (t : String)
  | missingContractName (t : String)
  | runtime (msg : String)
  | typeError
deriving DecidableEq, Repr

/-- Abstraction of the concerto serializer/validator collaborator
(external to this repository; consumed interface per spec section 6):
`fromJSON(json, opts)` deserializes to a typed value of type `α`,
`validateResource(cfg, v)` models attaching a `ResourceValidator` built from
`cfg` and calling `v.validate()`, and `toJSON(v, opts)` serializes back.
Any of the three may fail with a structural error. -/
structure Serializer (α : Type) where
  fromJSON : JValue → JValue → Except Err α
  validateResource : JValue → α → Except Err Unit
  toJSON : α → JValue → Except Err JValue

/-- The options record `{validate: false, acceptResourcesForRelationships: true, utcOffset}`
passed to `fromJSON` by `validateInput` and `validateContract`. -/
def permissiveFromOpts (utcOffset : JValue) : JValue :=
  .jobj (.cons "validate" (.jbool false)
    (.cons "acceptResourcesForRelationships" (.jbool true)
      (.cons "utcOffset" utcOffset .nil)))

/-- The options record `{ergo: true, validate: false, acceptResourcesForRelationships: true, utcOffset}`
passed to `fromJSON` by `validateOutput`. -/
def ergoFromOpts (utcOffset : JValue) : JValue :=
  .jobj (.cons "ergo" (.jbool true)
    (.cons "validate" (.jbool false)
      (.cons "acceptResourcesForRelationships" (.jbool true)
        (.cons "utcOffset" utcOffset .nil))))

/-- The options record `{ergo: true, permitResourcesForRelationships: true, utcOffset}`
passed to `toJSON` by `validateInput`. -/
def ergoToOpts (utcOffset : JValue) : JValue :=
  .jobj (.cons "ergo" (.jbool true)
    (.cons "permitResourcesForRelationships" (.jbool true)
      (.cons "utcOffset" utcOffset .nil)))

/-- The options record `{convertResourcesToRelationships: true, utcOffset}`
passed to `toJSON` by `validateOutput`. -/
def convertToOpts (utcOffset : JValue) : JValue :=
  .jobj (.cons "convertResourcesToRelationships" (.jbool true)
    (.cons "utcOffset" utcOffset .nil))

/-- The `ResourceValidator` configuration `{permitResourcesForRelationships: true}`. -/
def rvCfg : JValue :=
  .jobj (.cons "permitResourcesForRelationships" (.jbool true) .nil)

/-- `LogicManager.validateInput(input, utcOffset)` (logicmanager.js lines 296-307):
`null` is returned as is; otherwise the input is deserialized permissively,
validated, serialized in ergo mode and boxed. The serializer `S` and the
boxing function `box` stand for the external collaborator and the
`boxedCollections.boxColl` import. -/
def validateInput (S : Serializer α) (box : JValue → JValue)
    (input : JValue) (utcOffset : JValue) : Except Err JValue :=
  match input with
  | .jnull => .ok .jnull
  | _ => do
      let validInput ← S.fromJSON input (permissiveFromOpts utcOffset)
      S.validateResource rvCfg validInput
      let vJson ← S.toJSON validInput (ergoToOpts utcOffset)
      .ok (box vJson)

/-- `Object.assign(options, {ergo: true, permitResourcesForRelationships: true})`
as performed by `validateContract` (logicmanager.js line 327): the two source
fields are written into the caller's options object in order. -/
def assignErgoOptions (options : JObj) : JObj :=
  (options.setKey "ergo" (.jbool true)).setKey "permitResourcesForRelationships" (.jbool true)

/-- Result record `{serialized, validated}` of a successful `validateContract`. -/
structure ContractRes (α : Type) where
  serialized : JValue
  validated : α

/-- `LogicManager.validateContract(contract, utcOffset, options)` (logicmanager.js
lines 316-329). The JS function returns `null` for a `null` contract (embedded
as `none`) and otherwise a `{serialized, validated}` record; the second
component of the returned pair is the state of the caller's `options` object
after the call, which the source mutates with `Object.assign` before using it
as the `toJSON` options. -/
def validateContract (S : Serializer α) (box : JValue → JValue)
    (contract : JValue) (utcOffset : JValue) (optionsIn : Option JObj) :
    Except Err (Option (ContractRes α) × JObj) :=
  let options := optionsIn.getD .nil
  match contract with
  | .jnull => .ok (none, options)
  | _ => do
      let validContract ← S.fromJSON contract (permissiveFromOpts utcOffset)
      S.validateResource rvCfg validContract
      let vJson ← S.toJSON validContract (.jobj (assignErgoOptions options))
      .ok (some ⟨box vJson, validContract⟩, assignErgoOptions options)

/-- Field loop of `validateInputRecord`. -/
def validateInputRecordFields (S : Serializer α) (box : JValue → JValue)
    (fs : JObj) (utcOffset : JValue) : Except Err JObj :=
  match fs with
  | .nil => .ok .nil
  | .cons k v tl => do
      let v' ← if isObjectLike v then validateInput S box v utcOffset else .ok v
      let tl' ← validateInputRecordFields S box tl utcOffset
      .ok (.cons k v' tl')

/-- `LogicManager.validateInputRecord(input, utcOffset)` (logicmanager.js
lines 337-347): each object-valued field of the record goes through
`validateInput`, every other field is copied unchanged. A non-object input
has no enumerable fields here, so the result is the empty record. -/
def validateInputRecord (S : Serializer α) (box : JValue → JValue)
    (input : JValue) (utcOffset : JValue) : Except Err JValue :=
  match input with
  | .jobj fs => do
      let fs' ← validateInputRecordFields S box fs utcOffset
      .ok (.jobj fs')
  | _ => .ok (.jobj .nil)

/-- `LogicManager.validateOutput(output, utcOffset)` (logicmanager.js lines
355-369): `null` is returned as is, a non-object output passes through
unchanged, an object output is unboxed, re-deserialized in ergo mode,
validated, and re-serialized converting resources back to relationships.
`unbox` stands for the `boxedCollections.unboxColl` import. -/
def validateOutput (S : Serializer α) (unbox : JValue → JValue)
    (output : JValue) (utcOffset : JValue) : Except Err JValue :=
  match output with
  | .jnull => .ok .jnull
  | _ =>
      if isObjectLike output then do
        let vJson := unbox output
        let validOutput ← S.fromJSON vJson (ergoFromOpts utcOffset)
        S.validateResource rvCfg validOutput
        S.toJSON validOutput (convertToOpts utcOffset)
      else .ok output

/-- Element loop of `validateOutputArray`. -/
def validateOutputElems (S : Serializer α) (unbox : JValue → JValue)
    (xs : JArr) (utcOffset : JValue) : Except Err (List JValue) :=
  match xs with
  | .nil => .ok []
  | .cons v tl => do
      let v' ← validateOutput S unbox v utcOffset
      let tl' ← validateOutputElems S unbox tl utcOffset
      .ok (v' :: tl')

/-- `LogicManager.validateOutputArray(output, utcOffset)` (logicmanager.js
lines 377-384): the collection wrapper is unboxed and `validateOutput` is
applied to each element in order. A value that does not unbox to an array has
no `length`, so the loop body never runs and the result is empty. -/
def validateOutputArray (S : Serializer α) (unbox : JValue → JValue)
    (output : JValue) (utcOffset : JValue) : Except Err (List JValue) :=
  match unbox output with
  | .jarr xs => validateOutputElems S unbox xs utcOffset
  | _ => .ok []

/-- A registered model file as the model manager sees it: a file name, the
namespace parsed from its content, and the content itself. -/
structure ModelFileR where
  name : String
  ns : String
  content : String
deriving DecidableEq, Repr

/-- The model-management state of a `LogicManager` (logicmanager.js
constructor): the model manager's registered files, the `validated` flag and
the built-in namespaces recorded at construction time. -/
structure LMState where
  files : List ModelFileR
  validated : Bool
  builtIns : List String
deriving DecidableEq, Repr

/-- Modelled from the spec: the external model manager's
`addModelFile(modelFile, name, ...)` (concerto-core, not under `src/`)
registers one more model file. `nsOf` stands for the namespace parsed out of
the content by the `ModelFile` constructor. -/
def mmAddModelFile (nsOf : String → String) (files : List ModelFileR)
    (content name : String) : List ModelFileR :=
  files ++ [⟨name, nsOf content, content⟩]

/-- Modelled from the spec: the external model manager's
`updateModelFile(content, name, ...)` (not under `src/`) replaces the
registered file with the same namespace in place. -/
def mmUpdateModelFile (nsOf : String → String) (files : List ModelFileR)
    (content name : String) : List ModelFileR :=
  files.map (fun f => if f.ns = nsOf content then ⟨name, nsOf content, content⟩ else f)

/-- Modelled from the spec: the external model manager's
`deleteModelFile(namespace)` (not under `src/`) removes the files registered
under that namespace. -/
def mmDeleteModelFile (files : List ModelFileR) (ns : String) : List ModelFileR :=
  files.filter (fun f => f.ns ≠ ns)

/-- `LogicManager.addModelFile(modelFileContent, fileName)` (logicmanager.js
lines 212-220): the `validated` flag is cleared first, then the model is
registered unless its namespace is one of the built-in namespaces. -/
def addModelFile (nsOf : String → String) (st : LMState)
    (content name : String) : LMState :=
  let st := { st with validated := false }
  if (nsOf content) ∈ st.builtIns then st
  else { st with files := mmAddModelFile nsOf st.files content name }

/-- `LogicManager.addModelFiles(modelFiles, modelFileNames)` (logicmanager.js
lines 229-236): clears `validated`, then adds each content/name pair via
`addModelFile`. -/
def addModelFiles (nsOf : String → String) (st : LMState)
    (entries : List (String × String)) : LMState :=
  let st := { st with validated := false }
  entries.foldl (fun acc e => addModelFile nsOf acc e.1 e.2) st

/-- `LogicManager.validateModelFiles()` (logicmanager.js lines 241-246):
runs the model manager's structural validation (the abstract `V`, which may
fail with a ModelError) only when the `validated` flag is not yet set, then
sets the flag. The boolean in the result records whether the validation run
actually happened. -/
def validateModelFiles (V : List ModelFileR → Except Err Unit) (st : LMState) :
    Except Err (LMState × Bool) :=
  if st.validated then .ok (st, false)
  else do
    V st.files
    .ok ({ st with validated := true }, true)

/-- `LogicManager.updateModel(content, name)` (logicmanager.js lines 391-412):
unknown name registers the model; known name with identical content does
nothing; changed content with an unchanged namespace replaces in place;
a changed namespace deletes the old namespace and registers the new file. -/
def updateModel (nsOf : String → String) (st : LMState)
    (content name : String) : LMState :=
  match st.files.find? (fun f => f.name = name) with
  | none => { st with files := mmAddModelFile nsOf st.files content name }
  | some previousModelFile =>
      if content ≠ previousModelFile.content then
        let previousNamespace := previousModelFile.ns
        let newNamespace := nsOf content
        if previousNamespace = newNamespace then
          { st with files := mmUpdateModelFile nsOf st.files content name }
        else
          { st with files :=
              mmAddModelFile nsOf (mmDeleteModelFile st.files previousNamespace) content name }
      else st


/-- Outcome of one sandboxed run: the three logical outputs read back from the
VM context (`result.__response`, `result.__state`, `result.__emit`). -/
structure RunResult where
  __response : JValue
  __state : JValue
  __emit : JValue

/-- Abstraction of the engine's sandbox capability (the `VMEngine`/`EvalEngine`
subclasses overriding `compileVMScript`/`runVMScriptCall`, not under `src/`)
together with the `Util.setCurrentTime` helper from the compiler package.
`σ` is the type of compiled VM scripts. `runVMScriptCall` receives, in source
order: utcOffset, now, options, context, script, call. -/
structure EngineEnv (σ : Type) where
  setCurrentTime : Option JValue → Option JValue → JValue × JValue
  compileVMScript : String → Except Err σ
  runVMScriptCall : JValue → JValue → JValue → JValue → σ → String → Except Err RunResult

/-- Abstraction of the `ScriptManager` collaborator as the engine and the call
builders use it: the combined compiled JavaScript text (fails when nothing has
been compiled) and the `hasDispatch` check (fails when the compiled logic has
no dispatch function). -/
structure ScriptManagerEnv where
  getCompiledJavaScript : Except Err String
  hasDispatch : Except Err Unit

/-- The slice of a `LogicManager` instance the engine interacts with: the
serializer abstraction, the two `boxedCollections` imports, the compilation
target, the discovered contract name, and the script manager. -/
structure LogicCtx (α : Type) where
  S : Serializer α
  box : JValue → JValue
  unbox : JValue → JValue
  target : String
  contractName : Option String
  sm : ScriptManagerEnv

/-- Lookup in the engine's per-instance script cache `this.scripts`. -/
def cacheLookup : List (String × σ) → String → Option σ
  | [], _ => none
  | (k, v) :: rest, cid => if k = cid then some v else cacheLookup rest cid

/-- `Engine.clearCacheJsScript()` (engine.js lines 69-71): `this.scripts = \x7b\x7d`. -/
def clearCacheJsScript (_cache : List (String × σ)) : List (String × σ) := []

/-- `Engine.cacheJsScript(scriptManager, contractId)` (engine.js lines 80-87):
on a cache miss the combined JavaScript is fetched and compiled and the result
stored under the contract identifier; on a hit the cached script is returned.
The final number counts how many times `compileVMScript` ran (0 or 1). -/
def cacheJsScript (env : EngineEnv σ) (sm : ScriptManagerEnv)
    (cache : List (String × σ)) (contractId : String) :
    Except Err (σ × List (String × σ) × Nat) :=
  match cacheLookup cache contractId with
  | some script => .ok (script, cache, 0)
  | none => do
      let allJsScripts ← sm.getCompiledJavaScript
      let script ← env.compileVMScript allJsScripts
      .ok (script, cache ++ [(contractId, script)], 1)

/-- The es6 dispatch call text built by `LogicManager.getDispatchCall`
(logicmanager.js lines 101-104). -/
def dispatchCallCode : String :=
  "\nconst __result = __dispatch(\x7b__now:now,__options:options,__contract:context.data,__state:context.state,__emit:\x7b$coll:[],$length:0\x7d,request:context.request\x7d);\nunwrapError(__result);\n        "

/-- The es6 named-clause call text built by `LogicManager.getInvokeCall`
(logicmanager.js lines 123-126). -/
def invokeCallCode (contractName clauseName : String) : String :=
  "\nconst __result = " ++ contractName ++ "." ++ clauseName ++
    "(Object.assign(\x7b\x7d, \x7b__now:now,__options:options,__contract:context.data,__state:context.state,__emit:\x7b$coll:[],$length:0\x7d\x7d,context.params));\nunwrapError(__result);\n"

/-- `LogicManager.getDispatchCall()` (logicmanager.js lines 96-109): for the
es6 target, checks that the compiled logic has a dispatch function and returns
the dispatch call text; any other target is unsupported. -/
def getDispatchCall (L : LogicCtx α) : Except Err String :=
  if L.target = "es6" then do
    L.sm.hasDispatch
    .ok dispatchCallCode
  else .error (.unsupportedTarget L.target)

/-- `LogicManager.getInvokeCall(clauseName)` (logicmanager.js lines 117-134):
for the es6 target, requires a contract name and returns the named-clause call
text; any other target is unsupported. -/
def getInvokeCall (L : LogicCtx α) (clauseName : String) : Except Err String :=
  if L.target = "es6" then
    match L.contractName with
    | some contractName => .ok (invokeCallCode contractName clauseName)
    | none => .error (.missingContractName L.target)
  else .error (.unsupportedTarget L.target)

/-- JS property access `v.$class` as performed by the `Logger.debug` calls in
`trigger` and `invoke`: it raises a `TypeError` when `v` is `null`. -/
def classAccess : JValue → Except Err Unit
  | .jnull => .error .typeError
  | _ => .ok ()

/-- JS projection `validContract.serialized` as performed when the execution
context is built: a `TypeError` when `validateContract` returned `null`. -/
def serializedField : Option (ContractRes α) → Except Err JValue
  | none => .error .typeError
  | some r => .ok r.serialized

/-- The default options record built by `trigger` and `invoke` when the caller
passes none. -/
def defaultOptionsJson : JValue :=
  .jobj (.cons "$class" (.jstr "org.accordproject.ergo.options.Options")
    (.cons "wrapVariables" (.jbool false)
      (.cons "template" (.jbool false) .nil)))

/-- The canonical default contract state built by `init` and `calculate`:
the record tagged `org.accordproject.runtime.State`. -/
def defaultStateJson : JValue :=
  .jobj (.cons "$class" (.jstr "org.accordproject.runtime.State") .nil)

/-- The result record returned by `Engine.trigger`. -/
structure TriggerAnswer where
  clause : String
  request : JValue
  response : JValue
  state : JValue
  emit : List JValue

/-- The result record returned by `Engine.invoke`. -/
structure InvokeAnswer where
  clause : String
  params : JValue
  response : JValue
  state : JValue
  emit : List JValue

/-- `Engine.trigger(logic, contractId, contract, request, state, currentTime,
utcOffset, options)` (engine.js lines 103-142), with the per-instance script
cache threaded explicitly; the result carries the answer record, the new
cache, and the number of `compileVMScript` runs. -/
def trigger (env : EngineEnv σ) (L : LogicCtx α) (cache : List (String × σ))
    (contractId : String) (contract request state : JValue)
    (currentTime utcOffset : Option JValue) (options : Option JValue) :
    Except Err (TriggerAnswer × List (String × σ) × Nat) := do
  let nowOffset := env.setCurrentTime currentTime utcOffset
  let now := nowOffset.1
  let offset := nowOffset.2
  let validOptions := L.box (options.getD defaultOptionsJson)
  let vcRes ← validateContract L.S L.box contract offset none
  let validRequest ← validateInput L.S L.box request offset
  let validState ← validateInput L.S L.box state offset
  classAccess request
  classAccess state
  let cres ← cacheJsScript env L.sm cache contractId
  let script := cres.1
  let callScript ← getDispatchCall L
  let dataField ← serializedField vcRes.1
  let context : JValue :=
    .jobj (.cons "data" dataField
      (.cons "state" validState
        (.cons "request" validRequest
          (.cons "options" validOptions .nil))))
  let result ← env.runVMScriptCall offset now validOptions context script callScript
  let validResponse ← validateOutput L.S L.unbox result.__response offset
  let validNewState ← validateOutput L.S L.unbox result.__state offset
  let validEmit ← validateOutputArray L.S L.unbox result.__emit offset
  .ok (⟨contractId, request, validResponse, validNewState, validEmit⟩, cres.2.1, cres.2.2)

/-- `Engine.invoke(logic, contractId, clauseName, contract, params, state,
currentTime, utcOffset, options, validateOptions)` (engine.js lines 159-198),
embedded like `trigger`. -/
def invoke (env : EngineEnv σ) (L : LogicCtx α) (cache : List (String × σ))
    (contractId clauseName : String) (contract params state : JValue)
    (currentTime utcOffset : Option JValue) (options : Option JValue)
    (validateOptions : Option JObj) :
    Except Err (InvokeAnswer × List (String × σ) × Nat) := do
  let nowOffset := env.setCurrentTime currentTime utcOffset
  let now := nowOffset.1
  let offset := nowOffset.2
  let invokeOptions := L.box (options.getD defaultOptionsJson)
  let vcRes ← validateContract L.S L.box contract offset validateOptions
  let validParams ← validateInputRecord L.S L.box params offset
  let validState ← validateInput L.S L.box state offset
  classAccess state
  let cres ← cacheJsScript env L.sm cache contractId
  let script := cres.1
  let callScript ← getInvokeCall L clauseName
  let dataField ← serializedField vcRes.1
  let context : JValue :=
    .jobj (.cons "data" dataField
      (.cons "state" validState
        (.cons "params" validParams
          (.cons "__options" invokeOptions .nil))))
  let result ← env.runVMScriptCall offset now invokeOptions context script callScript
  let validResponse ← validateOutput L.S L.unbox result.__response offset
  let validNewState ← validateOutput L.S L.unbox result.__state offset
  let validEmit ← validateOutputArray L.S L.unbox result.__emit offset
  .ok (⟨contractId, params, validResponse, validNewState, validEmit⟩, cres.2.1, cres.2.2)

/-- `Engine.init(logic, contractId, contract, params, currentTime, utcOffset,
options)` (engine.js lines 211-216). -/
def init (env : EngineEnv σ) (L : LogicCtx α) (cache : List (String × σ))
    (contractId : String) (contract params : JValue)
    (currentTime utcOffset : Option JValue) (options : Option JValue) :
    Except Err (InvokeAnswer × List (String × σ) × Nat) :=
  invoke env L cache contractId "init" contract params defaultStateJson
    currentTime utcOffset options none

/-- `Engine.calculate(logic, contractId, name, contract, currentTime,
utcOffset, options)` (engine.js lines 229-236): the caller's options default
to the empty record before the delegation, so `invoke` always receives a
(truthy) options object here. -/
def calculate (env : EngineEnv σ) (L : LogicCtx α) (cache : List (String × σ))
    (contractId name : String) (contract : JValue)
    (currentTime utcOffset : Option JValue) (options : Option JValue) :
    Except Err (InvokeAnswer × List (String × σ) × Nat) :=
  let options := options.getD (.jobj .nil)
  invoke env L cache contractId name contract (.jobj .nil) defaultStateJson
    currentTime utcOffset (some options)
    (some (.cons "convertResourcesToId" (.jbool true) .nil))

/-- Whether an `Except` outcome is a success. -/
def exceptIsOk : Except ε β → Bool
  | .ok _ => true
  | .error _ => false


theorem exbind_ok_inv {β γ : Type} {e : Except Err β} {f : β → Except Err γ} {r : γ}
    (h : (e >>= f) = .ok r) : ∃ b, e = .ok b ∧ f b = .ok r := by
  cases e with
  | error _ => simp [Bind.bind, Except.bind] at h
  | ok b => exact ⟨b, rfl, by simpa [Bind.bind, Except.bind] using h⟩

/-- C2: for every utcOffset, `validateInput(null, utcOffset)` is `null`, for any
behaviour whatsoever of the serializer and of the boxing function (so neither
deserialization, nor structural validation, nor boxing is invoked); a non-null
input is deserialized with the permissive options, validated, serialized with
the ergo options and boxed. -/
theorem validateInput_null_transparent {α : Type} :
    (∀ (S : Serializer α) (box : JValue → JValue) (off : JValue),
      validateInput S box .jnull off = .ok .jnull)
    ∧ (∀ (S : Serializer α) (box : JValue → JValue) (input off : JValue),
      input ≠ .jnull →
      validateInput S box input off =
        (S.fromJSON input (permissiveFromOpts off)).bind (fun t =>
          (S.validateResource rvCfg t).bind (fun _ =>
            (S.toJSON t (ergoToOpts off)).bind (fun vJson => .ok (box vJson))))) := by
  refine ⟨fun S box off => rfl, fun S box input off h => ?_⟩
  cases input with
  | jnull => exact absurd rfl h
  | jbool b => rfl
  | jnum x => rfl
  | jnat n => rfl
  | jstr s => rfl
  | jarr xs => rfl
  | jobj fs => rfl

/-- A serializer whose typed values are the wire values themselves and whose
steps all succeed; used to evaluate the development on closed inputs. -/
def idSerializer : Serializer JValue where
  fromJSON := fun v _ => .ok v
  validateResource := fun _ _ => .ok ()
  toJSON := fun v _ => .ok v

theorem validateInput_null_transparent_app :
    validateInput idSerializer boxColl (.jbool true) .jnull = .ok (boxColl (.jbool true)) := by
  rw [(validateInput_null_transparent (α := JValue)).2 idSerializer boxColl (.jbool true) .jnull
    (fun h => JValue.noConfusion h)]
  rfl

/-- C8: the boxing codec is a bijection on valid values: for every wire value
`v` without reserved tags (the form `validateOutput` produces), boxing then
unboxing returns `v`; for the boxed form `boxColl v` (the form
`validateInput` produces), unboxing then boxing returns it. -/
theorem boxColl_unboxColl_bijection (v : JValue) (h : wireOk v = true) :
    unboxColl (boxColl v) = v ∧ boxColl (unboxColl (boxColl v)) = boxColl v := by
  refine ⟨unboxColl_boxColl v h, ?_⟩
  rw [unboxColl_boxColl v h]

/-- A sample wire value with a natural-number field, a collection field and a
plain field, following the shape exercised by the repository's validator test. -/
def sampleWire : JValue :=
  .jobj (.cons "amount" (.jnum 3)
    (.cons "someNumber" (.jnat 3)
      (.cons "someArray" (.jarr (.cons (.jnat 0) (.cons (.jnat 1) (.cons (.jnat 2) .nil))))
        (.cons "stuff" (.jstr "GRR") .nil))))

theorem boxColl_unboxColl_bijection_app :
    unboxColl (boxColl sampleWire) = sampleWire
    ∧ boxColl (unboxColl (boxColl sampleWire)) = boxColl sampleWire :=
  boxColl_unboxColl_bijection sampleWire rfl


theorem addModelFile_validated_false (nsOf : String → String) (st : LMState)
    (content name : String) : (addModelFile nsOf st content name).validated = false := by
  unfold addModelFile
  dsimp only
  split <;> rfl

theorem addModelFiles_foldl_validated (nsOf : String → String)
    (entries : List (String × String)) (st : LMState) (h : st.validated = false) :
    (entries.foldl (fun acc e => addModelFile nsOf acc e.1 e.2) st).validated = false := by
  induction entries generalizing st with
  | nil => simpa using h
  | cons e tl ih =>
      simp only [List.foldl_cons]
      exact ih _ (addModelFile_validated_false nsOf st e.1 e.2)

/-- C4 (corrected): `addModelFile` and `addModelFiles` leave the `validated`
flag false; `updateModel` leaves the flag exactly as it was (it talks to the
model manager directly and never touches the flag); `validateModelFiles` sets
the flag and is idempotent: once a call has succeeded, calling it again does
no validation work and returns the same state. -/
theorem lm_validated_flag (V : List ModelFileR → Except Err Unit)
    (nsOf : String → String) (st : LMState) (content name : String)
    (entries : List (String × String)) :
    (addModelFile nsOf st content name).validated = false
    ∧ (addModelFiles nsOf st entries).validated = false
    ∧ (updateModel nsOf st content name).validated = st.validated
    ∧ (∀ st' ran, validateModelFiles V st = .ok (st', ran) →
        st'.validated = true ∧ validateModelFiles V st' = .ok (st', false)) := by
  refine ⟨addModelFile_validated_false nsOf st content name, ?_, ?_, ?_⟩
  · exact addModelFiles_foldl_validated nsOf entries _ rfl
  · unfold updateModel
    rcases hfind : st.files.find? (fun f => f.name = name) with _ | prev
    · rw [hfind]
    · rw [hfind]
      dsimp only
      split
      · split <;> rfl
      · rfl
  · intro st' ran h
    unfold validateModelFiles at h
    by_cases hv : st.validated
    · rw [if_pos hv] at h
      injection h with h'
      injection h' with h1 h2
      subst h1
      refine ⟨hv, ?_⟩
      unfold validateModelFiles
      rw [if_pos hv]
    · rw [if_neg hv] at h
      obtain ⟨u, hu, h⟩ := exbind_ok_inv h
      injection h with h'
      injection h' with h1 h2
      subst h1
      refine ⟨rfl, ?_⟩
      unfold validateModelFiles
      rw [if_pos rfl]

theorem lm_validated_flag_app :
    (⟨[], true, []⟩ : LMState).validated = true
    ∧ validateModelFiles (fun _ => .ok ()) (⟨[], true, []⟩ : LMState)
        = .ok ((⟨[], true, []⟩ : LMState), false) :=
  (lm_validated_flag (fun _ => .ok ()) (fun _ => "a") ⟨[], false, []⟩ "c" "n" []).2.2.2
    ⟨[], true, []⟩ true rfl

/-- C4 counterexample: the claim says the `validated` flag is false after any
model update, but `updateModel` does not clear it: starting from a state with
`validated = true`, the flag is still true after an update. -/
theorem updateModel_keeps_validated_true :
    (updateModel (fun _ => "ns1") ⟨[], true, []⟩ "content" "name").validated = true := by
  decide

/-- C5: `updateModel(content, name)` by cases: an unknown name registers the
file; a known name with identical content changes nothing; changed content
under the same namespace replaces the file in place (same position, other
files untouched); a changed namespace leaves the old namespace absent and the
new namespace present. -/
theorem updateModel_cases (nsOf : String → String) (st : LMState) (content name : String) :
    (st.files.find? (fun f => f.name = name) = none →
      updateModel nsOf st content name
        = { st with files := st.files ++ [⟨name, nsOf content, content⟩] })
    ∧ (∀ prev, st.files.find? (fun f => f.name = name) = some prev →
        content = prev.content → updateModel nsOf st content name = st)
    ∧ (∀ prev, st.files.find? (fun f => f.name = name) = some prev →
        content ≠ prev.content → nsOf content = prev.ns →
        updateModel nsOf st content name
          = { st with files :=
                st.files.map (fun f => if f.ns = prev.ns then ⟨name, nsOf content, content⟩ else f) })
    ∧ (∀ prev, st.files.find? (fun f => f.name = name) = some prev →
        content ≠ prev.content → nsOf content ≠ prev.ns →
        (∀ f ∈ (updateModel nsOf st content name).files, f.ns ≠ prev.ns)
        ∧ ∃ f ∈ (updateModel nsOf st content name).files, f.ns = nsOf content) := by
  refine ⟨?_, ?_, ?_, ?_⟩
  · intro hfind
    unfold updateModel
    rw [hfind]
    rfl
  · intro prev hfind heq
    unfold updateModel
    rw [hfind]
    dsimp only
    rw [if_neg (fun hc => hc heq)]
  · intro prev hfind hne hns
    unfold updateModel
    rw [hfind]
    dsimp only
    rw [if_pos hne, if_pos hns.symm]
    simp only [mmUpdateModelFile, hns]
  · intro prev hfind hne hns
    unfold updateModel
    rw [hfind]
    dsimp only
    rw [if_pos hne, if_neg (fun hc => hns hc.symm)]
    constructor
    · intro f hf
      unfold mmAddModelFile mmDeleteModelFile at hf
      simp only [List.mem_append, List.mem_filter, List.mem_singleton] at hf
      rcases hf with ⟨_, hf⟩ | hf
      · simpa using hf
      · rw [hf]
        exact hns
    · refine ⟨⟨name, nsOf content, content⟩, ?_, rfl⟩
      unfold mmAddModelFile mmDeleteModelFile
      simp

theorem updateModel_cases_app :
    (∀ f ∈ (updateModel (fun c => c) ⟨[⟨"m", "nsA", "nsA"⟩], true, []⟩ "nsB" "m").files,
      f.ns ≠ "nsA")
    ∧ ∃ f ∈ (updateModel (fun c => c) ⟨[⟨"m", "nsA", "nsA"⟩], true, []⟩ "nsB" "m").files,
        f.ns = "nsB" :=
  (updateModel_cases (fun c => c) ⟨[⟨"m", "nsA", "nsA"⟩], true, []⟩ "nsB" "m").2.2.2
    ⟨"m", "nsA", "nsA"⟩ (by decide) (by decide) (by decide)

/-- C6 (corrected): a model with a built-in namespace is not registered
(the file list is unchanged), but the call is not a no-op: the `validated`
flag is cleared first in either case; a non-built-in namespace is registered
and the flag is cleared. -/
theorem addModelFile_builtin_cases (nsOf : String → String) (st : LMState)
    (content name : String) :
    ((nsOf content) ∈ st.builtIns →
      (addModelFile nsOf st content name).files = st.files
      ∧ (addModelFile nsOf st content name).validated = false
      ∧ (addModelFile nsOf st content name).builtIns = st.builtIns)
    ∧ ((nsOf content) ∉ st.builtIns →
      (addModelFile nsOf st content name).files
          = st.files ++ [⟨name, nsOf content, content⟩]
      ∧ (addModelFile nsOf st content name).validated = false) := by
  constructor
  · intro hmem
    unfold addModelFile
    dsimp only
    rw [if_pos hmem]
    exact ⟨rfl, rfl, rfl⟩
  · intro hmem
    unfold addModelFile
    dsimp only
    rw [if_neg hmem]
    exact ⟨rfl, rfl⟩

theorem addModelFile_builtin_cases_app :
    (addModelFile (fun _ => "b") ⟨[], true, ["b"]⟩ "c" "n").files = []
    ∧ (addModelFile (fun _ => "b") ⟨[], true, ["b"]⟩ "c" "n").validated = false
    ∧ (addModelFile (fun _ => "b") ⟨[], true, ["b"]⟩ "c" "n").builtIns = ["b"] :=
  (addModelFile_builtin_cases (fun _ => "b") ⟨[], true, ["b"]⟩ "c" "n").1 (by decide)

/-- C6 counterexample: the claim says a built-in-namespace add leaves the
caller-visible state unchanged, but the `validated` flag is cleared before the
namespace test, so the state does change. -/
theorem addModelFile_builtin_not_noop :
    addModelFile (fun _ => "b") ⟨[], true, ["b"]⟩ "c" "n" ≠ ⟨[], true, ["b"]⟩ := by
  decide


theorem cacheLookup_append_self {σ : Type} (cache : List (String × σ)) (cid : String)
    (scr : σ) (h : cacheLookup cache cid = none) :
    cacheLookup (cache ++ [(cid, scr)]) cid = some scr := by
  induction cache with
  | nil => simp [cacheLookup]
  | cons p rest ih =>
      obtain ⟨k, v⟩ := p
      rw [List.cons_append]
      unfold cacheLookup at h ⊢
      by_cases hk : k = cid
      · rw [if_pos hk] at h
        cases h
      · rw [if_neg hk] at h ⊢
        exact ih h

theorem cacheJsScript_miss {σ : Type} (env : EngineEnv σ) (sm : ScriptManagerEnv)
    (cache : List (String × σ)) (cid : String) (scr : σ) (c' : List (String × σ)) (n : Nat)
    (hmiss : cacheLookup cache cid = none)
    (h : cacheJsScript env sm cache cid = .ok (scr, c', n)) :
    c' = cache ++ [(cid, scr)] ∧ n = 1 ∧ cacheLookup c' cid = some scr := by
  unfold cacheJsScript at h
  rw [hmiss] at h
  obtain ⟨js, hjs, h⟩ := exbind_ok_inv h
  obtain ⟨s2, hs2, h⟩ := exbind_ok_inv h
  injection h with h'
  injection h' with h1 h2
  injection h2 with h2a h2b
  subst h1 h2a h2b
  exact ⟨rfl, rfl, cacheLookup_append_self cache cid _ hmiss⟩

theorem cacheJsScript_hit {σ : Type} (env : EngineEnv σ) (sm : ScriptManagerEnv)
    (cache : List (String × σ)) (cid : String) (scr : σ)
    (hhit : cacheLookup cache cid = some scr) :
    cacheJsScript env sm cache cid = .ok (scr, cache, 0) := by
  unfold cacheJsScript
  rw [hhit]

theorem invoke_cacheJsScript {σ α : Type} (env : EngineEnv σ) (L : LogicCtx α)
    (cache : List (String × σ)) (contractId clauseName : String)
    (contract params state : JValue) (ct off : Option JValue)
    (opts : Option JValue) (vopts : Option JObj)
    (a : InvokeAnswer) (c' : List (String × σ)) (n : Nat)
    (h : invoke env L cache contractId clauseName contract params state ct off opts vopts
          = .ok (a, c', n)) :
    ∃ scr, cacheJsScript env L.sm cache contractId = .ok (scr, c', n) := by
  unfold invoke at h
  obtain ⟨vc, hvc, h⟩ := exbind_ok_inv h
  obtain ⟨vp, hvp, h⟩ := exbind_ok_inv h
  obtain ⟨vs, hvs, h⟩ := exbind_ok_inv h
  obtain ⟨u, hu, h⟩ := exbind_ok_inv h
  obtain ⟨cres, hcres, h⟩ := exbind_ok_inv h
  obtain ⟨call, hcall, h⟩ := exbind_ok_inv h
  obtain ⟨dataF, hdata, h⟩ := exbind_ok_inv h
  obtain ⟨r, hr, h⟩ := exbind_ok_inv h
  obtain ⟨vresp, hvresp, h⟩ := exbind_ok_inv h
  obtain ⟨vst2, hvst2, h⟩ := exbind_ok_inv h
  obtain ⟨vemit, hvemit, h⟩ := exbind_ok_inv h
  injection h with h'
  injection h' with h1 h2
  injection h2 with h2a h2b
  subst h2a h2b
  obtain ⟨scr, c1, n1⟩ := cres
  exact ⟨scr, hcres⟩

/-- C7: the executable cache is per-instance state keyed by contractId; for a
contract identifier not yet cached, two successive `invoke` runs threading the
cache compile exactly once — the first run compiles once and stores the
executable under the identifier, the second performs no compilation and leaves
the cache as it was — and `clearCacheJsScript` removes all entries. -/
theorem invoke_compiles_once {σ α : Type} (env : EngineEnv σ) (L : LogicCtx α)
    (cache : List (String × σ)) (contractId clauseName : String)
    (contract params state : JValue) (ct off : Option JValue)
    (opts : Option JValue) (vopts : Option JObj)
    (a₁ a₂ : InvokeAnswer) (c₁ c₂ : List (String × σ)) (n₁ n₂ : Nat)
    (hmiss : cacheLookup cache contractId = none)
    (h₁ : invoke env L cache contractId clauseName contract params state ct off opts vopts
          = .ok (a₁, c₁, n₁))
    (h₂ : invoke env L c₁ contractId clauseName contract params state ct off opts vopts
          = .ok (a₂, c₂, n₂)) :
    n₁ = 1 ∧ n₂ = 0 ∧ c₂ = c₁
    ∧ (∀ cid, cacheLookup (clearCacheJsScript c₂) cid = (none : Option σ)) := by
  obtain ⟨s₁, hc₁⟩ := invoke_cacheJsScript env L cache contractId clauseName contract params
    state ct off opts vopts a₁ c₁ n₁ h₁
  obtain ⟨hc₁', hn₁, hlook⟩ := cacheJsScript_miss env L.sm cache contractId s₁ c₁ n₁ hmiss hc₁
  obtain ⟨s₂, hc₂⟩ := invoke_cacheJsScript env L c₁ contractId clauseName contract params
    state ct off opts vopts a₂ c₂ n₂ h₂
  rw [cacheJsScript_hit env L.sm c₁ contractId s₁ hlook] at hc₂
  injection hc₂ with h'
  injection h' with h1 h2
  injection h2 with h2a h2b
  exact ⟨hn₁, h2b.symm, h2a.symm, fun cid => rfl⟩


/-- A script manager whose compiled JavaScript is available and whose logic
has a dispatch function; used to evaluate the development on closed inputs. -/
def smOk : ScriptManagerEnv where
  getCompiledJavaScript := .ok "var logic;"
  hasDispatch := .ok ()

/-- An engine environment whose sandbox runs succeed and produce a null
response, the default state and an empty boxed emit collection. -/
def envOk : EngineEnv String where
  setCurrentTime := fun _ _ => (.jstr "2020-01-01T00:00:00Z", .jnum 0)
  compileVMScript := fun scriptText => .ok scriptText
  runVMScriptCall := fun _ _ _ _ _ _ => .ok ⟨.jnull, defaultStateJson, boxColl (.jarr .nil)⟩

/-- A logic context over the identity serializer with the es6 target, a known
contract name, and the modelled boxing codec. -/
def ctxOk : LogicCtx JValue where
  S := idSerializer
  box := boxColl
  unbox := unboxColl
  target := "es6"
  contractName := some "HelloWorld"
  sm := smOk

/-- A sample wire request object. -/
def requestJson : JValue :=
  .jobj (.cons "$class" (.jstr "org.accordproject.helloworld.Request") .nil)

/-- A sample wire contract object. -/
def contractJson : JValue :=
  .jobj (.cons "$class" (.jstr "org.accordproject.helloworld.HelloWorldClause") .nil)

/-- A sample one-field parameter record. -/
def paramsOne : JValue := .jobj (.cons "input" (.jstr "hello") .nil)

theorem invoke_compiles_once_app :
    (1 : Nat) = 1 ∧ (0 : Nat) = 0
    ∧ ([("cid", "var logic;")] : List (String × String)) = [("cid", "var logic;")]
    ∧ (∀ cid, cacheLookup (clearCacheJsScript [("cid", "var logic;")]) cid
        = (none : Option String)) :=
  invoke_compiles_once envOk ctxOk [] "cid" "greet" contractJson paramsOne defaultStateJson
    none none none none
    ⟨"cid", paramsOne, .jnull, defaultStateJson, []⟩
    ⟨"cid", paramsOne, .jnull, defaultStateJson, []⟩
    [("cid", "var logic;")] [("cid", "var logic;")] 1 0 rfl rfl rfl

/-- C1: whenever `trigger` succeeds, the answer record is `{clause: the
contract identifier, request: the caller's request echoed verbatim (not the
validated or boxed form), response/state: the outputs of the run passed
through `validateOutput`, emit: the run's emit passed through
`validateOutputArray`, hence an ordered list, possibly empty}`. -/
theorem trigger_result_shape {σ α : Type} (env : EngineEnv σ) (L : LogicCtx α)
    (cache : List (String × σ)) (contractId : String)
    (contract request state : JValue) (ct off : Option JValue) (opts : Option JValue)
    (ans : TriggerAnswer) (c' : List (String × σ)) (n : Nat)
    (h : trigger env L cache contractId contract request state ct off opts = .ok (ans, c', n)) :
    ans.clause = contractId ∧ ans.request = request
    ∧ ∃ r : RunResult,
        validateOutput L.S L.unbox r.__response (env.setCurrentTime ct off).2 = .ok ans.response
        ∧ validateOutput L.S L.unbox r.__state (env.setCurrentTime ct off).2 = .ok ans.state
        ∧ validateOutputArray L.S L.unbox r.__emit (env.setCurrentTime ct off).2 = .ok ans.emit := by
  unfold trigger at h
  obtain ⟨vc, hvc, h⟩ := exbind_ok_inv h
  obtain ⟨vreq, hvreq, h⟩ := exbind_ok_inv h
  obtain ⟨vst, hvst, h⟩ := exbind_ok_inv h
  obtain ⟨u1, hu1, h⟩ := exbind_ok_inv h
  obtain ⟨u2, hu2, h⟩ := exbind_ok_inv h
  obtain ⟨cres, hcres, h⟩ := exbind_ok_inv h
  obtain ⟨call, hcall, h⟩ := exbind_ok_inv h
  obtain ⟨dataF, hdata, h⟩ := exbind_ok_inv h
  obtain ⟨r, hr, h⟩ := exbind_ok_inv h
  obtain ⟨vResp, hvResp, h⟩ := exbind_ok_inv h
  obtain ⟨vSt2, hvSt2, h⟩ := exbind_ok_inv h
  obtain ⟨vEmit, hvEmit, h⟩ := exbind_ok_inv h
  injection h with h'
  have hans : (⟨contractId, request, vResp, vSt2, vEmit⟩ : TriggerAnswer) = ans :=
    congrArg Prod.fst h'
  refine ⟨?_, ?_, r, ?_, ?_, ?_⟩
  · rw [← hans]
  · rw [← hans]
  · rw [← hans]
    exact hvResp
  · rw [← hans]
    exact hvSt2
  · rw [← hans]
    exact hvEmit

theorem trigger_result_shape_app :
    (⟨"cid", requestJson, .jnull, defaultStateJson, []⟩ : TriggerAnswer).clause = "cid"
    ∧ (⟨"cid", requestJson, .jnull, defaultStateJson, []⟩ : TriggerAnswer).request = requestJson
    ∧ ∃ r : RunResult,
        validateOutput ctxOk.S ctxOk.unbox r.__response (envOk.setCurrentTime none none).2
          = .ok (⟨"cid", requestJson, .jnull, defaultStateJson, []⟩ : TriggerAnswer).response
        ∧ validateOutput ctxOk.S ctxOk.unbox r.__state (envOk.setCurrentTime none none).2
          = .ok (⟨"cid", requestJson, .jnull, defaultStateJson, []⟩ : TriggerAnswer).state
        ∧ validateOutputArray ctxOk.S ctxOk.unbox r.__emit (envOk.setCurrentTime none none).2
          = .ok (⟨"cid", requestJson, .jnull, defaultStateJson, []⟩ : TriggerAnswer).emit :=
  trigger_result_shape envOk ctxOk [] "cid" contractJson requestJson defaultStateJson
    none none none ⟨"cid", requestJson, .jnull, defaultStateJson, []⟩
    [("cid", "var logic;")] 1 rfl


/-- C9: `validateContract(null, utcOffset, options)` returns `null` itself
(the `none` component), not a `{serialized, validated}` record; and the
engine entry points that unconditionally project the `serialized` field —
`trigger` and `invoke` — never succeed on a `null` contract, whatever the
collaborators do. -/
theorem validateContract_null_breaks_callers {σ α : Type} :
    (∀ (S : Serializer α) (box : JValue → JValue) (off : JValue) (opts : Option JObj),
      validateContract S box .jnull off opts = .ok (none, opts.getD .nil))
    ∧ (∀ (env : EngineEnv σ) (L : LogicCtx α) (cache : List (String × σ))
        (cid : String) (request state : JValue) (ct off : Option JValue)
        (opts : Option JValue),
      exceptIsOk (trigger env L cache cid .jnull request state ct off opts) = false)
    ∧ (∀ (env : EngineEnv σ) (L : LogicCtx α) (cache : List (String × σ))
        (cid clauseName : String) (params state : JValue) (ct off : Option JValue)
        (opts : Option JValue) (vopts : Option JObj),
      exceptIsOk (invoke env L cache cid clauseName .jnull params state ct off opts vopts)
        = false) := by
  refine ⟨fun S box off opts => rfl, ?_, ?_⟩
  · intro env L cache cid request state ct off opts
    cases htr : trigger env L cache cid .jnull request state ct off opts with
    | error e => rfl
    | ok r =>
        exfalso
        obtain ⟨ans, c', n⟩ := r
        unfold trigger at htr
        obtain ⟨vc, hvc, htr⟩ := exbind_ok_inv htr
        have hvc' : (Except.ok ((none : Option (ContractRes α)), JObj.nil)
            : Except Err (Option (ContractRes α) × JObj)) = .ok vc := hvc
        injection hvc' with hvc''
        subst hvc''
        obtain ⟨vreq, hvreq, htr⟩ := exbind_ok_inv htr
        obtain ⟨vst, hvst, htr⟩ := exbind_ok_inv htr
        obtain ⟨u1, hu1, htr⟩ := exbind_ok_inv htr
        obtain ⟨u2, hu2, htr⟩ := exbind_ok_inv htr
        obtain ⟨cres, hcres, htr⟩ := exbind_ok_inv htr
        obtain ⟨call, hcall, htr⟩ := exbind_ok_inv htr
        obtain ⟨dataF, hdata, htr⟩ := exbind_ok_inv htr
        simp [serializedField] at hdata
  · intro env L cache cid clauseName params state ct off opts vopts
    cases hin : invoke env L cache cid clauseName .jnull params state ct off opts vopts with
    | error e => rfl
    | ok r =>
        exfalso
        obtain ⟨ans, c', n⟩ := r
        unfold invoke at hin
        obtain ⟨vc, hvc, hin⟩ := exbind_ok_inv hin
        have hvc' : (Except.ok ((none : Option (ContractRes α)), vopts.getD JObj.nil)
            : Except Err (Option (ContractRes α) × JObj)) = .ok vc := hvc
        injection hvc' with hvc''
        subst hvc''
        obtain ⟨vp, hvp, hin⟩ := exbind_ok_inv hin
        obtain ⟨vst, hvst, hin⟩ := exbind_ok_inv hin
        obtain ⟨u1, hu1, hin⟩ := exbind_ok_inv hin
        obtain ⟨cres, hcres, hin⟩ := exbind_ok_inv hin
        obtain ⟨call, hcall, hin⟩ := exbind_ok_inv hin
        obtain ⟨dataF, hdata, hin⟩ := exbind_ok_inv hin
        simp [serializedField] at hdata

/-- C3 (corrected): `init` delegates to `invoke` with clause name "init", the
canonical default state, and the caller's `params` passed through unchanged
(not the empty record); and `init` is not alone in supplying the default
state: `calculate` also delegates with the canonical default state (and the
empty parameter record). -/
theorem init_calculate_delegation {σ α : Type} (env : EngineEnv σ) (L : LogicCtx α)
    (cache : List (String × σ)) (contractId name : String)
    (contract params : JValue) (ct off : Option JValue) (opts : Option JValue) :
    init env L cache contractId contract params ct off opts
      = invoke env L cache contractId "init" contract params defaultStateJson ct off opts none
    ∧ calculate env L cache contractId name contract ct off opts
      = invoke env L cache contractId name contract (.jobj .nil) defaultStateJson ct off
          (some (opts.getD (.jobj .nil)))
          (some (.cons "convertResourcesToId" (.jbool true) .nil)) :=
  ⟨rfl, rfl⟩

/-- The number of fields in the `params` record echoed by a successful
`invoke`-family result (0 for a failed run). -/
def resultParamsSize : Except Err (InvokeAnswer × List (String × σ) × Nat) → Nat
  | .ok (a, _, _) =>
      match a.params with
      | .jobj fs => fs.size
      | _ => 0
  | .error _ => 0

/-- C3 counterexample: at a concrete input, `init` hands the caller's one-field
`params` record through to the logic (the echoed `params` of the result has
one field), while the `invoke` call the claim describes — clause "init" with
the empty parameter record — echoes an empty record: `init` is not delegating
with `params = \x7b\x7d`. Moreover `calculate` equals an `invoke` call whose state
argument is the canonical default, so `init` is not the only entry point
supplying the default state. -/
theorem init_passes_caller_params :
    resultParamsSize
        (Ergo.init envOk ctxOk [] "cid" contractJson paramsOne none none none) = 1
    ∧ resultParamsSize
        (invoke envOk ctxOk [] "cid" "init" contractJson (.jobj .nil) defaultStateJson
          none none none none) = 0
    ∧ calculate envOk ctxOk [] "cid" "f" contractJson none none none
      = invoke envOk ctxOk [] "cid" "f" contractJson (.jobj .nil) defaultStateJson
          none none (some (.jobj .nil))
          (some (.cons "convertResourcesToId" (.jbool true) .nil)) :=
  ⟨rfl, rfl, rfl⟩


theorem lookupKey_setKey_self (o : JObj) (k : String) (v : JValue) :
    (o.setKey k v).lookupKey k = some v := by
  match o with
  | .nil => simp [JObj.setKey, JObj.lookupKey]
  | .cons k' w tl =>
      unfold JObj.setKey
      by_cases hk : k' = k
      · rw [if_pos hk]
        unfold JObj.lookupKey
        rw [if_pos hk]
      · rw [if_neg hk]
        unfold JObj.lookupKey
        rw [if_neg hk]
        exact lookupKey_setKey_self tl k v

theorem lookupKey_setKey_other (o : JObj) (k k' : String) (v : JValue) (h : k' ≠ k) :
    (o.setKey k v).lookupKey k' = o.lookupKey k' := by
  match o with
  | .nil =>
      unfold JObj.setKey JObj.lookupKey
      rw [if_neg (fun hc => h hc.symm)]
      rfl
  | .cons k₀ w tl =>
      unfold JObj.setKey
      by_cases hk : k₀ = k
      · rw [if_pos hk]
        unfold JObj.lookupKey
        by_cases hk' : k₀ = k'
        · exact absurd (hk'.symm.trans hk) h
        · rw [if_neg hk', if_neg hk']
      · rw [if_neg hk]
        unfold JObj.lookupKey
        by_cases hk' : k₀ = k'
        · rw [if_pos hk', if_pos hk']
        · rw [if_neg hk', if_neg hk']
          exact lookupKey_setKey_other tl k k' v h

/-- A trivial serializer over the unit typed-value type, every step of which
succeeds; used to evaluate the development on closed inputs. -/
def unitSerializer : Serializer Unit where
  fromJSON := fun _ _ => .ok ()
  validateResource := fun _ _ => .ok ()
  toJSON := fun _ _ => .ok .jnull

/-- An options object that already carries both assignments `validateContract`
performs. -/
def bothOpts : JObj :=
  .cons "ergo" (.jbool true) (.cons "permitResourcesForRelationships" (.jbool true) .nil)

/-- C10 (corrected): on every successful `validateContract` call with a
non-null contract, the caller's options object ends up with `ergo: true` and
`permitResourcesForRelationships: true` written into it (it equals the
original with the two assignments applied), and it differs from the original
whenever the original did not already carry the `ergo: true` assignment; an
options object already carrying both assignments is left unchanged. -/
theorem validateContract_assigns_options {α : Type} (S : Serializer α)
    (box : JValue → JValue) (contract off : JValue) (opts : JObj)
    (res : Option (ContractRes α) × JObj)
    (hnn : contract ≠ .jnull)
    (h : validateContract S box contract off (some opts) = .ok res) :
    res.2 = assignErgoOptions opts
    ∧ res.2.lookupKey "ergo" = some (.jbool true)
    ∧ res.2.lookupKey "permitResourcesForRelationships" = some (.jbool true)
    ∧ (opts.lookupKey "ergo" ≠ some (.jbool true) → res.2 ≠ opts) := by
  have hres2 : res.2 = assignErgoOptions opts := by
    cases contract
    case jnull => exact absurd rfl hnn
    all_goals (
      unfold validateContract at h
      obtain ⟨t, ht, h⟩ := exbind_ok_inv h
      obtain ⟨u, hu, h⟩ := exbind_ok_inv h
      obtain ⟨vj, hvj, h⟩ := exbind_ok_inv h
      injection h with h'
      rw [← h']
      rfl)
  have e2 : (assignErgoOptions opts).lookupKey "permitResourcesForRelationships"
      = some (.jbool true) := lookupKey_setKey_self _ _ _
  have e1 : (assignErgoOptions opts).lookupKey "ergo" = some (.jbool true) := by
    unfold assignErgoOptions
    rw [lookupKey_setKey_other _ _ _ _ (by decide)]
    exact lookupKey_setKey_self _ _ _
  refine ⟨hres2, hres2 ▸ e1, hres2 ▸ e2, ?_⟩
  intro hno heq
  exact hno (heq ▸ (hres2 ▸ e1))

theorem validateContract_assigns_options_app :
    ((some (⟨.jnull, ()⟩ : ContractRes Unit), assignErgoOptions .nil)
        : Option (ContractRes Unit) × JObj).2 = assignErgoOptions .nil
    ∧ (assignErgoOptions JObj.nil).lookupKey "ergo" = some (.jbool true)
    ∧ (assignErgoOptions JObj.nil).lookupKey "permitResourcesForRelationships"
        = some (.jbool true)
    ∧ (JObj.nil.lookupKey "ergo" ≠ some (.jbool true) →
        ((some (⟨.jnull, ()⟩ : ContractRes Unit), assignErgoOptions .nil)
          : Option (ContractRes Unit) × JObj).2 ≠ JObj.nil) :=
  validateContract_assigns_options unitSerializer (fun v => v) (.jobj .nil) .jnull .nil
    (some ⟨.jnull, ()⟩, assignErgoOptions .nil) (fun hc => JValue.noConfusion hc) rfl

/-- C10 counterexample: an options object that already carries `ergo: true`
and `permitResourcesForRelationships: true` comes back from a successful
non-null `validateContract` call exactly as it went in — the claim that the
options argument is never left unchanged fails at this input. -/
theorem validateContract_options_can_be_unchanged :
    validateContract unitSerializer (fun v => v) (.jobj .nil) .jnull (some bothOpts)
      = .ok (some ⟨.jnull, ()⟩, bothOpts) := rfl

end Ergo
